import Mathlib

/-!
Verification of the fileOrganizer repository (src/fileOrganizer.cxx).

The development shallowly embeds the program's core:

* `FileHeuristic::evaluate` (lines 26-46) as `FileOrganizer.evaluate`;
* the three driver functions `organizeAlphabetically` (130-178),
  `organizeByKeyword` (181-225) and `organizeByContent` (228-277) as pure
  functions producing the list of observable driver events (messages shown
  through `showMessage`, directory-creation attempts through
  `createDirectory`, and jobs handed to `ThreadPool::enqueue`);
* the `ThreadPool` class (49-95) as a small-step transition system
  (`step` / `run`) over `PoolState`, one transition per atomic action
  performed under the queue mutex.

The filesystem is an explicit parameter: `validDir` models
`!dir.empty() && fs::exists(dir)`, the scanned regular files are a list of
`FileEntry` snapshots, and `mk : String -> Bool` models whether
`createDirectory` succeeds for a given destination folder name (a folder
that already exists counts as success, exactly as in the C++ code).
`std::sort` gives no guarantee beyond producing a permutation that is
ordered by the comparator (it is not a stable sort), so the sorted list is
passed explicitly and constrained by the relation `CppSorted`.
-/

namespace FileOrganizer

/-- Snapshot of one regular file taken at scan time: filename, length of the
full path string, size in bytes, extension, and (for content mode) the bytes
returned by `getFileContent`. -/
structure FileEntry where
  filename : String
  pathLen : Nat
  size : Nat
  ext : String
  content : String
deriving DecidableEq

/-- The fixed cheap-extension set of `FileHeuristic::evaluate`
(line 38: `.txt`, `.jpg`, `.png`). -/
def cheapExt (e : String) : Bool :=
  e == ".txt" || e == ".jpg" || e == ".png"

/-- Conversion of an unsigned (`uintmax_t`) value to the 32-bit signed
`int` of `int priority = size + pathLength;` (line 35): the value is
reduced mod 2^32 and reinterpreted in two's complement, so sums of 2^31
and above wrap to negative scores. -/
def toInt32 (n : Nat) : Int :=
  if n % 4294967296 < 2147483648 then ((n % 4294967296 : Nat) : Int)
  else ((n % 4294967296 : Nat) : Int) - 4294967296

/-- Model of `FileHeuristic::evaluate` (lines 28-45) on a scanned regular
file: `int priority = size + pathLength;` adds the `uintmax_t` byte size
and the `size_t` path length and truncates the unsigned sum into the
32-bit signed `priority` (wrapping for files of 2 GiB and more);
`if (cheap ext) priority -= 1000;` then subtracts in `int`, modelled as
plain integer subtraction (it stays in range for every representable
priority outside the undefined-behaviour corner within 1000 of INT_MIN). -/
def evaluate (f : FileEntry) : Int :=
  toInt32 (f.size + f.pathLen) - (if cheapExt f.ext then 1000 else 0)

/-- Contract of `std::sort(files.begin(), files.end(), cmp)` with
`cmp a b = evaluate a < evaluate b` (lines 150-152, 206-208, 248-250):
the output is some permutation of the input that is non-decreasing in the
score.  `std::sort` guarantees nothing further; in particular it is not
stable, so ties may appear in either order. -/
def CppSorted (input output : List FileEntry) : Prop :=
  List.Perm output input ∧ List.Sorted (fun a b => evaluate a ≤ evaluate b) output

/-- The letters `'A'` to `'Z'` of the loop on line 155, unrolled. -/
def lettersAZ : List Char :=
  ['A', 'B', 'C', 'D', 'E', 'F', 'G', 'H', 'I', 'J', 'K', 'L', 'M',
   'N', 'O', 'P', 'Q', 'R', 'S', 'T', 'U', 'V', 'W', 'X', 'Y', 'Z']

/-- The lowercase ASCII letters, used to model C `toupper`. -/
def lettersLower : List Char :=
  ['a', 'b', 'c', 'd', 'e', 'f', 'g', 'h', 'i', 'j', 'k', 'l', 'm',
   'n', 'o', 'p', 'q', 'r', 's', 't', 'u', 'v', 'w', 'x', 'y', 'z']

/-- C `toupper` in the C locale, restricted to ASCII as the code uses it
(line 163): maps `'a'..'z'` to `'A'..'Z'` and leaves every other character
unchanged. -/
def asciiToUpper (c : Char) : Char :=
  match (lettersLower.zip lettersAZ).find? (fun p => p.1 == c) with
  | some p => p.2
  | none => c

/-- Whether a character is an ASCII letter. -/
def isAsciiLetter (c : Char) : Bool :=
  lettersAZ.contains c || lettersLower.contains c

/-- Model of `file.filename().string()[0]` (line 163); a regular file's name is
non-empty, the `'\0'` default mirrors `std::string::operator[]` at the
size index. -/
def firstChar (s : String) : Char :=
  s.toList.headD (Char.ofNat 0)

/-- Model of `toupper(file.filename().string()[0])` (line 163). -/
def upFirst (s : String) : Char :=
  asciiToUpper (firstChar s)

/-- Executable check that `needle` is a prefix of `hay`. -/
def isPrefixB : List Char → List Char → Bool
  | [], _ => true
  | _ :: _, [] => false
  | a :: as, b :: bs => a == b && isPrefixB as bs

/-- Model of `hay.find(needle) != std::string::npos`: `needle` occurs as a contiguous
substring of `hay` (the empty needle always matches, as for `find`). -/
def containsSub (needle : List Char) : List Char → Bool
  | [] => isPrefixB needle []
  | c :: t => isPrefixB needle (c :: t) || containsSub needle t

/-- Observable actions of one driver run: a `showMessage` call, a
`createDirectory` attempt on a destination folder (with its outcome), or a
job handed to `ThreadPool::enqueue` (the move of `file` into `folder`). -/
inductive DEvent
  | message (text : String)
  | create (folder : String) (ok : Bool)
  | enqueueJob (file : FileEntry) (folder : String)
deriving DecidableEq

/-- Model of `FileOrganizer::createDirectory` (lines 106-116): returns whether the
folder exists or was created; on failure it shows
`"Error creating directory: " ++ path`. -/
def createEvents (mk : String → Bool) (folder : String) : List DEvent :=
  if mk folder then [DEvent.create folder true]
  else [DEvent.create folder false,
        DEvent.message ("Error creating directory: " ++ folder)]

/-- One iteration of the letter loop of `organizeAlphabetically`
(lines 155-172): create the letter folder; on failure `continue`; otherwise
enqueue a move for every scanned file whose upper-cased first character
equals the letter, in sorted order. -/
def alphaLetterBlock (mk : String → Bool) (sorted : List FileEntry)
    (letter : Char) : List DEvent :=
  createEvents mk (String.singleton letter) ++
    (if mk (String.singleton letter) then
      (sorted.filter (fun f => upFirst f.filename == letter)).map
        (fun f => DEvent.enqueueJob f (String.singleton letter))
    else [])

/-- Model of `FileOrganizer::organizeAlphabetically` (lines 130-178).  `validDir`
models `!dir.empty() && fs::exists(dir)`; `files` is the scan result in
directory order and `sorted` the list after `std::sort` (line 150). -/
def organizeAlphabetically (validDir : Bool) (files sorted : List FileEntry)
    (mk : String → Bool) : List DEvent :=
  if !validDir then [DEvent.message "Invalid directory."]
  else if files.isEmpty then [DEvent.message "No files found."]
  else
    (lettersAZ.flatMap (alphaLetterBlock mk sorted)) ++
      [DEvent.message "Files organized alphabetically!"]

/-- Model of `FileOrganizer::organizeByKeyword` (lines 181-225).  Note the code
`return`s when creating the keyword folder fails (lines 201-203), so no
job is enqueued and the success message is not shown. -/
def organizeByKeyword (validDir : Bool) (keyword : String)
    (files sorted : List FileEntry) (mk : String → Bool) : List DEvent :=
  if !validDir || keyword.isEmpty then
    [DEvent.message "Invalid directory or keyword."]
  else if files.isEmpty then [DEvent.message "No files found."]
  else if mk keyword then
    DEvent.create keyword true ::
      ((sorted.filter
          (fun f => containsSub keyword.toList f.filename.toList)).map
          (fun f => DEvent.enqueueJob f keyword) ++
        [DEvent.message
          ("Files with keyword '" ++ keyword ++ "' moved successfully!")])
  else
    [DEvent.create keyword false,
     DEvent.message ("Error creating directory: " ++ keyword)]

/-- The inner keyword loop of `organizeByContent` for one file
(lines 256-270): on a content match, try to create the keyword folder; on
creation failure `continue` with the NEXT keyword; on success enqueue the
move and `break`. -/
def contentFileEvents (mk : String → Bool) (f : FileEntry) :
    List String → List DEvent
  | [] => []
  | kw :: rest =>
    if containsSub kw.toList f.content.toList then
      if mk kw then [DEvent.create kw true, DEvent.enqueueJob f kw]
      else
        DEvent.create kw false ::
          DEvent.message ("Error creating directory: " ++ kw) ::
            contentFileEvents mk f rest
    else contentFileEvents mk f rest

/-- Model of `FileOrganizer::organizeByContent` (lines 228-277). -/
def organizeByContent (validDir : Bool) (keywords : List String)
    (files sorted : List FileEntry) (mk : String → Bool) : List DEvent :=
  if !validDir then [DEvent.message "Invalid directory."]
  else if files.isEmpty then [DEvent.message "No files found."]
  else
    (sorted.flatMap (fun f => contentFileEvents mk f keywords)) ++
      [DEvent.message "Files organized based on content!"]

/-- The jobs a run hands to the pool, in submission order. -/
def dispatched : List DEvent → List (FileEntry × String)
  | [] => []
  | DEvent.enqueueJob f d :: es => (f, d) :: dispatched es
  | _ :: es => dispatched es

/-- The destination folders a run attempts to create, in order. -/
def createsAttempted : List DEvent → List String
  | [] => []
  | DEvent.create d _ :: es => d :: createsAttempted es
  | _ :: es => createsAttempted es

/-- Destination-creation happens-before dispatch: wherever a run's event
list contains an enqueue targeting folder `d`, a successful creation (or
existence check) of `d` occurs strictly earlier in the list. -/
def createPrecedes (evs : List DEvent) : Prop :=
  ∀ pre f d post, evs = pre ++ DEvent.enqueueJob f d :: post →
    DEvent.create d true ∈ pre

/-! ## The ThreadPool (lines 49-95)

One transition per atomic action taken under `queueMutex`:

* `enqueue j` — `ThreadPool::enqueue` (lines 80-87): unconditionally pushes
  the job; the source contains no check of the `stop` flag.
* `take i` — worker `i` wakes with a non-empty queue and pops the front
  task (lines 58-61).
* `finish i` — worker `i` completes the task it had popped (line 63); the
  job id is appended to the execution log.
* `setStop` — the destructor sets `stop = true` under the mutex (line 72).
* `wexit i` — worker `i` observes `stop && tasks.empty()` and returns
  (line 59).

`~ThreadPool` (lines 69-78) = `setStop` followed by joining every worker,
i.e. waiting until every worker has performed its `wexit`. -/

/-- A worker context: waiting for work, running job `j`, or terminated. -/
inductive WStat
  | idle
  | busy (job : Nat)
  | done
deriving DecidableEq

/-- Shared state protected by `queueMutex`, plus the execution log. -/
structure PoolState where
  queue : List Nat
  stopFlag : Bool
  workers : List WStat
  execLog : List Nat
deriving DecidableEq

/-- Events of the pool's interleaving semantics. -/
inductive PEvent
  | enqueue (job : Nat)
  | take (i : Nat)
  | finish (i : Nat)
  | setStop
  | wexit (i : Nat)
deriving DecidableEq

/-- One atomic transition of the pool; `none` when the event is not enabled
in the given state. -/
def step (s : PoolState) : PEvent → Option PoolState
  | PEvent.enqueue j => some { s with queue := s.queue ++ [j] }
  | PEvent.take i =>
    match s.workers[i]?, s.queue with
    | some WStat.idle, j :: rest =>
      some { s with workers := s.workers.set i (WStat.busy j), queue := rest }
    | _, _ => none
  | PEvent.finish i =>
    match s.workers[i]? with
    | some (WStat.busy j) =>
      some { s with workers := s.workers.set i WStat.idle,
                    execLog := s.execLog ++ [j] }
    | _ => none
  | PEvent.setStop => some { s with stopFlag := true }
  | PEvent.wexit i =>
    match s.workers[i]?, s.stopFlag, s.queue with
    | some WStat.idle, true, [] =>
      some { s with workers := s.workers.set i WStat.done }
    | _, _, _ => none

/-- Run a sequence of transitions. -/
def run (s : PoolState) : List PEvent → Option PoolState
  | [] => some s
  | e :: es =>
    match step s e with
    | some s' => run s' es
    | none => none

/-- Fresh pool with `n` idle workers (constructor, lines 51-67). -/
def initPool (n : Nat) : PoolState :=
  { queue := [], stopFlag := false, workers := List.replicate n WStat.idle,
    execLog := [] }

/-- The jobs submitted in an event sequence, in submission order. -/
def submitted : List PEvent → List Nat
  | [] => []
  | PEvent.enqueue j :: es => j :: submitted es
  | _ :: es => submitted es

/-- Predicate `okSubmits stopSeen es`: no job is submitted at or after the point where
shutdown has begun (`setStop`); `stopSeen` says whether it already has. -/
def okSubmits : Bool → List PEvent → Bool
  | _, [] => true
  | stopSeen, PEvent.enqueue _ :: es => !stopSeen && okSubmits stopSeen es
  | _, PEvent.setStop :: es => okSubmits true es
  | stopSeen, _ :: es => okSubmits stopSeen es

/-- Jobs currently being executed by some worker. -/
def busyJobs : List WStat → List Nat
  | [] => []
  | WStat.busy j :: ws => j :: busyJobs ws
  | _ :: ws => busyJobs ws

/-- Some worker context has terminated. -/
def anyDone (ws : List WStat) : Bool :=
  ws.any (fun w => w == WStat.done)

/-- Every worker context has terminated (what joining all workers
establishes, so `~ThreadPool` has returned). -/
def allDone (ws : List WStat) : Bool :=
  ws.all (fun w => w == WStat.done)

/-- A terminated worker implies the stop flag is set and it observed an
empty queue; with no submissions after `setStop` the queue stays empty. -/
def Quiesced (s : PoolState) : Prop :=
  anyDone s.workers = true → s.stopFlag = true ∧ s.queue = []

/-- Conservation quantity: every submitted job is in exactly one of the
queue, a busy worker, or the execution log. -/
def poolMeasure (s : PoolState) : Multiset Nat :=
  (s.execLog : Multiset Nat) + (s.queue : Multiset Nat) +
    (busyJobs s.workers : Multiset Nat)

/-! ### Helper lemmas about worker-state updates -/

theorem busyJobs_set_busy (ws : List WStat) (i : Nat) (j : Nat)
    (h : ws[i]? = some WStat.idle) :
    List.Perm (busyJobs (ws.set i (WStat.busy j))) (j :: busyJobs ws) := by
  induction ws generalizing i with
  | nil => simp at h
  | cons w t ih =>
    cases i with
    | zero =>
      simp at h
      subst h
      simp [List.set, busyJobs]
    | succ n =>
      simp at h
      have hp := ih n h
      cases w with
      | idle => simpa [List.set, busyJobs] using hp
      | done => simpa [List.set, busyJobs] using hp
      | busy k =>
        simp only [List.set, busyJobs]
        exact (hp.cons k).trans (List.Perm.swap j k (busyJobs t))

theorem busyJobs_set_idle (ws : List WStat) (i j : Nat)
    (h : ws[i]? = some (WStat.busy j)) :
    List.Perm (j :: busyJobs (ws.set i WStat.idle)) (busyJobs ws) := by
  induction ws generalizing i with
  | nil => simp at h
  | cons w t ih =>
    cases i with
    | zero =>
      simp at h
      subst h
      simp [List.set, busyJobs]
    | succ n =>
      simp at h
      have hp := ih n h
      cases w with
      | idle => simpa [List.set, busyJobs] using hp
      | done => simpa [List.set, busyJobs] using hp
      | busy k =>
        simp only [List.set, busyJobs]
        exact (List.Perm.swap k j (busyJobs (t.set n WStat.idle))).trans (hp.cons k)

theorem busyJobs_set_done (ws : List WStat) (i : Nat)
    (h : ws[i]? = some WStat.idle) :
    busyJobs (ws.set i WStat.done) = busyJobs ws := by
  induction ws generalizing i with
  | nil => simp at h
  | cons w t ih =>
    cases i with
    | zero =>
      simp at h
      subst h
      simp [List.set, busyJobs]
    | succ n =>
      simp at h
      cases w <;> simp [List.set, busyJobs, ih n h]

theorem anyDone_set_notDone (ws : List WStat) (i : Nat) (v w : WStat)
    (hget : ws[i]? = some w) (hv : v ≠ WStat.done) (hw : w ≠ WStat.done) :
    anyDone (ws.set i v) = anyDone ws := by
  induction ws generalizing i with
  | nil => simp at hget
  | cons w0 t ih =>
    cases i with
    | zero =>
      simp at hget
      subst hget
      simp [List.set, anyDone, beq_eq_false_iff_ne.mpr hv, beq_eq_false_iff_ne.mpr hw]
    | succ n =>
      simp at hget
      simp [List.set, anyDone] at ih ⊢
      rw [ih n hget]

theorem allDone_get (ws : List WStat) (h : allDone ws = true) (i : Nat)
    (w : WStat) (hget : ws[i]? = some w) : w = WStat.done := by
  have hm : w ∈ ws := List.getElem?_mem hget
  have := (List.all_eq_true.mp h) w hm
  simpa using this

theorem busyJobs_of_allDone (ws : List WStat) (h : allDone ws = true) :
    busyJobs ws = [] := by
  induction ws with
  | nil => rfl
  | cons w t ih =>
    simp [allDone] at h
    obtain ⟨hw, ht⟩ := h
    subst hw
    exact ih (by simpa [allDone] using ht)

/-! ### The drain / exactly-once argument -/

theorem run_accounting (es : List PEvent) : ∀ s s' : PoolState,
    run s es = some s' → okSubmits s.stopFlag es = true → Quiesced s →
    Quiesced s' ∧ s'.workers.length = s.workers.length ∧
      poolMeasure s' = poolMeasure s + (submitted es : Multiset Nat) := by
  induction es with
  | nil =>
    intro s s' hrun hok hq
    cases hrun
    exact ⟨hq, rfl, by simp [submitted]⟩
  | cons e es ih =>
    intro s s' hrun hok hq
    cases e with
    | enqueue j =>
      simp only [run, step] at hrun
      simp only [okSubmits, Bool.and_eq_true, Bool.not_eq_true'] at hok
      obtain ⟨hstop, hok⟩ := hok
      have hq1 : Quiesced { s with queue := s.queue ++ [j] } := by
        intro hd
        exact absurd ((hq hd).1) (by simp [hstop])
      obtain ⟨hqa, hla, hma⟩ := ih _ _ hrun (by simpa [hstop] using hok) hq1
      refine ⟨hqa, hla, ?_⟩
      rw [hma]
      simp only [poolMeasure, submitted, ← Multiset.coe_add, ← Multiset.cons_coe,
        Multiset.coe_singleton, ← Multiset.singleton_add]
      abel
    | take i =>
      rcases hget : s.workers[i]? with _ | w
      · simp [run, step, hget] at hrun
      rcases hqu : s.queue with _ | ⟨j, rest⟩
      · cases w <;> simp [run, step, hget, hqu] at hrun
      cases w with
      | busy k => simp [run, step, hget, hqu] at hrun
      | done => simp [run, step, hget, hqu] at hrun
      | idle =>
        simp only [run, step, hget, hqu] at hrun
        simp only [okSubmits] at hok
        have hany1 : anyDone (s.workers.set i (WStat.busy j)) = anyDone s.workers :=
          anyDone_set_notDone _ _ _ _ hget (by simp) (by simp)
        have hq1 : Quiesced { s with workers := s.workers.set i (WStat.busy j), queue := rest } := by
          intro hd
          rw [show anyDone ({ s with workers := s.workers.set i (WStat.busy j), queue := rest } : PoolState).workers = anyDone s.workers from hany1] at hd
          exact absurd ((hq hd).2) (by simp [hqu])
        obtain ⟨hqa, hla, hma⟩ := ih _ _ hrun hok hq1
        refine ⟨hqa, by simpa using hla, ?_⟩
        rw [hma]
        have hb : (busyJobs (s.workers.set i (WStat.busy j)) : Multiset Nat) =
            ((j :: busyJobs s.workers : List Nat) : Multiset Nat) :=
          Multiset.coe_eq_coe.mpr (busyJobs_set_busy _ _ _ hget)
        simp only [poolMeasure, submitted, hqu, hb, ← Multiset.coe_add,
          ← Multiset.cons_coe, Multiset.coe_singleton, ← Multiset.singleton_add]
        abel
    | finish i =>
      rcases hget : s.workers[i]? with _ | w
      · simp [run, step, hget] at hrun
      cases w with
      | idle => simp [run, step, hget] at hrun
      | done => simp [run, step, hget] at hrun
      | busy j =>
        simp only [run, step, hget] at hrun
        simp only [okSubmits] at hok
        have hany1 : anyDone (s.workers.set i WStat.idle) = anyDone s.workers :=
          anyDone_set_notDone _ _ _ _ hget (by simp) (by simp)
        have hq1 : Quiesced { s with workers := s.workers.set i WStat.idle, execLog := s.execLog ++ [j] } := by
          intro hd
          rw [show anyDone ({ s with workers := s.workers.set i WStat.idle, execLog := s.execLog ++ [j] } : PoolState).workers = anyDone s.workers from hany1] at hd
          exact hq hd
        obtain ⟨hqa, hla, hma⟩ := ih _ _ hrun hok hq1
        refine ⟨hqa, by simpa using hla, ?_⟩
        rw [hma]
        have hb : ((j :: busyJobs (s.workers.set i WStat.idle) : List Nat) : Multiset Nat) =
            (busyJobs s.workers : Multiset Nat) :=
          Multiset.coe_eq_coe.mpr (busyJobs_set_idle _ _ _ hget)
        simp only [poolMeasure, submitted, ← hb, ← Multiset.coe_add,
          ← Multiset.cons_coe, Multiset.coe_singleton, ← Multiset.singleton_add]
        abel
    | setStop =>
      simp only [run, step] at hrun
      simp only [okSubmits] at hok
      have hq1 : Quiesced { s with stopFlag := true } := by
        intro hd
        exact ⟨rfl, (hq hd).2⟩
      obtain ⟨hqa, hla, hma⟩ := ih _ _ hrun hok hq1
      refine ⟨hqa, hla, ?_⟩
      rw [hma]
      simp [poolMeasure, submitted]
    | wexit i =>
      rcases hget : s.workers[i]? with _ | w
      · simp [run, step, hget] at hrun
      rcases hst : s.stopFlag with _ | _
      · cases w <;> rcases hqu : s.queue with _ | ⟨j, rest⟩ <;>
          simp [run, step, hget, hst, hqu] at hrun
      rcases hqu : s.queue with _ | ⟨j, rest⟩
      case cons => cases w <;> simp [run, step, hget, hst, hqu] at hrun
      cases w with
      | busy k => simp [run, step, hget, hst, hqu] at hrun
      | done => simp [run, step, hget, hst, hqu] at hrun
      | idle =>
        simp only [run, step, hget, hst, hqu] at hrun
        simp only [okSubmits] at hok
        have hq1 : Quiesced { queue := [], stopFlag := true, workers := s.workers.set i WStat.done, execLog := s.execLog } := by
          intro _
          exact ⟨rfl, rfl⟩
        obtain ⟨hqa, hla, hma⟩ := ih _ _ hrun (by simpa [hst] using hok) hq1
        refine ⟨hqa, by simpa using hla, ?_⟩
        rw [hma]
        simp [poolMeasure, submitted, hqu, busyJobs_set_done _ _ hget]

theorem allDone_no_exec (more : List PEvent) : ∀ s t : PoolState,
    allDone s.workers = true → run s more = some t → t.execLog = s.execLog := by
  induction more with
  | nil =>
    intro s t _ hrun
    cases hrun
    rfl
  | cons e es ih =>
    intro s t hall hrun
    cases e with
    | enqueue j =>
      simp only [run, step] at hrun
      exact ih { queue := s.queue ++ [j], stopFlag := s.stopFlag, workers := s.workers, execLog := s.execLog } t (by simpa using hall) hrun
    | take i =>
      rcases hget : s.workers[i]? with _ | w
      · simp [run, step, hget] at hrun
      · have := allDone_get _ hall _ _ hget
        subst this
        rcases hqu : s.queue with _ | ⟨j, rest⟩ <;>
          simp [run, step, hget, hqu] at hrun
    | finish i =>
      rcases hget : s.workers[i]? with _ | w
      · simp [run, step, hget] at hrun
      · have := allDone_get _ hall _ _ hget
        subst this
        simp [run, step, hget] at hrun
    | setStop =>
      simp only [run, step] at hrun
      exact ih { queue := s.queue, stopFlag := true, workers := s.workers, execLog := s.execLog } t (by simpa using hall) hrun
    | wexit i =>
      rcases hget : s.workers[i]? with _ | w
      · simp [run, step, hget] at hrun
      · have := allDone_get _ hall _ _ hget
        subst this
        rcases hst : s.stopFlag with _ | _ <;>
          rcases hqu : s.queue with _ | ⟨j, rest⟩ <;>
            simp [run, step, hget, hst, hqu] at hrun

theorem busyJobs_replicate_idle (n : Nat) :
    busyJobs (List.replicate n WStat.idle) = [] := by
  induction n with
  | zero => rfl
  | succ m ihm => simpa [List.replicate, busyJobs] using ihm

/-- Claim C1: every job submitted to the worker pool before shutdown begins
(no `enqueue` at or after `setStop`) is executed exactly once — the final
execution log is a permutation of the submission list — and once
`~ThreadPool` has returned (the stop flag is set and every worker context
has terminated), the job queue is empty and no continuation of the system
can execute any further job. -/
theorem threadPool_exactly_once_and_drains (n : Nat) (es : List PEvent)
    (s : PoolState) (hn : 0 < n)
    (hrun : run (initPool n) es = some s)
    (hok : okSubmits false es = true)
    (hall : allDone s.workers = true) :
    s.queue = [] ∧ List.Perm s.execLog (submitted es) ∧
      ∀ more t, run s more = some t → t.execLog = s.execLog := by
  have hq0 : Quiesced (initPool n) := by
    intro h
    simp [initPool, anyDone, List.any_eq_true, List.mem_replicate] at h
  obtain ⟨hq, hlen, hmeas⟩ := run_accounting es (initPool n) s hrun hok hq0
  have hne : s.workers ≠ [] := by
    intro h
    rw [h] at hlen
    simp [initPool] at hlen
    omega
  have hany : anyDone s.workers = true := by
    cases hws : s.workers with
    | nil => exact absurd hws hne
    | cons w t =>
      have hw : w = WStat.done := by
        have := allDone_get s.workers hall 0 w (by simp [hws, List.get?])
        exact this
      simp [anyDone, hws, hw]
  obtain ⟨hstop, hqe⟩ := hq hany
  have hbusy : busyJobs s.workers = [] := busyJobs_of_allDone _ hall
  have hbr : busyJobs (List.replicate n WStat.idle) = [] := busyJobs_replicate_idle n
  refine ⟨hqe, ?_, ?_⟩
  · have h := hmeas
    simp [poolMeasure, initPool, hqe, hbusy, hbr] at h
    exact h
  · exact fun more t h => allDone_no_exec more s t hall h

def c1Events : List PEvent :=
  [PEvent.enqueue 5, PEvent.setStop, PEvent.take 0, PEvent.finish 0,
   PEvent.wexit 0]

def c1Final : PoolState :=
  { queue := [], stopFlag := true, workers := [WStat.done], execLog := [5] }

/-- Concrete instantiation of the C1 theorem: one worker, one job submitted
before shutdown, a complete drain trace. -/
theorem threadPool_exactly_once_witness :
    c1Final.queue = [] ∧ List.Perm c1Final.execLog (submitted c1Events) ∧
      ∀ more t, run c1Final more = some t → t.execLog = c1Final.execLog :=
  threadPool_exactly_once_and_drains 1 c1Events c1Final (by decide) (by decide)
    (by decide) (by decide)

/-- A pool on which shutdown has completed: stop flag set, queue drained,
the single worker context terminated. -/
def stoppedPool : PoolState :=
  { queue := [], stopFlag := true, workers := [WStat.done], execLog := [] }

/-- Claim C4 evidence (code bug): `ThreadPool::enqueue` (lines 80-87)
contains no check of the `stop` flag, so a submission made after shutdown
has begun — here even after it has completed — is accepted into the queue
rather than rejected: the spec requires `submit` after shutdown to fail,
never to be silently dropped, but the job sits in the queue of a pool whose
workers have all terminated and is never executed. -/
theorem enqueue_after_shutdown_accepted :
    run stoppedPool [PEvent.enqueue 7] =
      some { queue := [7], stopFlag := true, workers := [WStat.done],
             execLog := [] } ∧
      allDone stoppedPool.workers = true ∧ submitted [PEvent.enqueue 7] = [7] := by
  decide

/-! ### Creation happens-before dispatch (C9) -/

theorem dispatched_append (a b : List DEvent) :
    dispatched (a ++ b) = dispatched a ++ dispatched b := by
  induction a with
  | nil => rfl
  | cons e t ih => cases e <;> simp [dispatched, ih]

theorem cp_of_no_enqueue (l : List DEvent) (h : dispatched l = []) :
    createPrecedes l := by
  intro pre f d post heq
  exfalso
  rw [heq, dispatched_append] at h
  simp [dispatched] at h

theorem cp_append {a b : List DEvent} (ha : createPrecedes a)
    (hb : createPrecedes b) : createPrecedes (a ++ b) := by
  intro pre f d post heq
  rcases List.append_eq_append_iff.mp heq with ⟨a2, h1, h2⟩ | ⟨c2, h1, h2⟩
  · rw [h1]
    exact List.mem_append.mpr (Or.inr (hb a2 f d post h2))
  · cases c2 with
    | nil =>
      simp at h1 h2
      exact absurd (hb [] f d post (by simp [← h2])) (by simp)
    | cons e c3 =>
      have he : DEvent.enqueueJob f d = e ∧ post = c3 ++ b := by
        constructor
        · exact (List.cons.inj h2).1
        · exact (List.cons.inj h2).2
      rw [← he.1] at h1
      exact ha pre f d c3 h1

theorem cp_cons_safe (e : DEvent) (l : List DEvent)
    (he : ∀ f d, e ≠ DEvent.enqueueJob f d) (h : createPrecedes l) :
    createPrecedes (e :: l) := by
  intro pre f d post heq
  cases pre with
  | nil =>
    simp at heq
    exact absurd heq.1 (he f d)
  | cons e2 pre2 =>
    obtain ⟨he2, hl⟩ := by exact List.cons.inj heq
    have := h pre2 f d post hl
    exact List.mem_cons.mpr (Or.inr this)

theorem cp_create_head (d : String) (l : List DEvent)
    (h : ∀ f d2, DEvent.enqueueJob f d2 ∈ l → d2 = d) :
    createPrecedes (DEvent.create d true :: l) := by
  intro pre f d2 post heq
  cases pre with
  | nil => simp at heq
  | cons e pre2 =>
    obtain ⟨he, hl⟩ := by exact List.cons.inj heq
    have hd2 : d2 = d := by
      refine h f d2 ?_
      rw [hl]
      exact List.mem_append.mpr (Or.inr (List.mem_cons_self _ _))
    subst hd2
    subst he
    exact List.mem_cons_self _ _

theorem cp_flatMap {α : Type} (l : List α) (g : α → List DEvent)
    (h : ∀ x ∈ l, createPrecedes (g x)) : createPrecedes (l.flatMap g) := by
  induction l with
  | nil => exact cp_of_no_enqueue [] rfl
  | cons x t ih =>
    rw [List.flatMap_cons]
    exact cp_append (h x (List.mem_cons_self _ _))
      (ih fun y hy => h y (List.mem_cons.mpr (Or.inr hy)))

theorem cp_alphaLetterBlock (mk : String → Bool) (sorted : List FileEntry)
    (letter : Char) : createPrecedes (alphaLetterBlock mk sorted letter) := by
  unfold alphaLetterBlock createEvents
  rcases hc : mk (String.singleton letter) with _ | _
  · simp only [hc, if_false, Bool.false_eq_true]
    refine cp_of_no_enqueue _ ?_
    simp [dispatched_append, dispatched]
  · simp only [hc, if_true]
    rw [show ([DEvent.create (String.singleton letter) true] ++
        (sorted.filter (fun f => upFirst f.filename == letter)).map
          (fun f => DEvent.enqueueJob f (String.singleton letter))) =
        DEvent.create (String.singleton letter) true ::
        (sorted.filter (fun f => upFirst f.filename == letter)).map
          (fun f => DEvent.enqueueJob f (String.singleton letter)) from rfl]
    refine cp_create_head _ _ ?_
    intro f d2 hmem
    obtain ⟨g, _, hg⟩ := List.mem_map.mp hmem
    exact (DEvent.enqueueJob.inj hg.symm).2

theorem cp_contentFileEvents (mk : String → Bool) (f : FileEntry)
    (kws : List String) : createPrecedes (contentFileEvents mk f kws) := by
  induction kws with
  | nil => exact cp_of_no_enqueue [] rfl
  | cons kw rest ih =>
    unfold contentFileEvents
    rcases hm : containsSub kw.toList f.content.toList with _ | _
    · simpa [hm] using ih
    · simp only [hm, if_true]
      rcases hc : mk kw with _ | _
      · simp only [hc, Bool.false_eq_true, if_false]
        refine cp_cons_safe _ _ (by intro g d; simp) ?_
        exact cp_cons_safe _ _ (by intro g d; simp) ih
      · simp only [hc, if_true]
        refine cp_create_head _ _ ?_
        intro g d2 hmem
        simp at hmem
        exact hmem.2

/-- Claim C9: in every mode, a successful creation (or existence check) of a
destination directory occurs in the run's event sequence strictly before any
job targeting that destination is submitted to the worker pool. -/
theorem create_precedes_dispatch_all_modes (validDir : Bool)
    (files sorted : List FileEntry) (mk : String → Bool) (keyword : String)
    (keywords : List String) :
    createPrecedes (organizeAlphabetically validDir files sorted mk) ∧
      createPrecedes (organizeByKeyword validDir keyword files sorted mk) ∧
      createPrecedes (organizeByContent validDir keywords files sorted mk) := by
  refine ⟨?_, ?_, ?_⟩
  · unfold organizeAlphabetically
    rcases validDir with _ | _
    · exact cp_of_no_enqueue _ rfl
    · simp only [Bool.not_true, Bool.false_eq_true, if_false]
      rcases hf : files.isEmpty with _ | _
      · simp only [hf, Bool.false_eq_true, if_false]
        refine cp_append (cp_flatMap _ _ fun L _ => cp_alphaLetterBlock mk sorted L) ?_
        exact cp_of_no_enqueue _ rfl
      · simp only [hf, if_true]
        exact cp_of_no_enqueue _ rfl
  · unfold organizeByKeyword
    rcases hv : (!validDir || keyword.isEmpty) with _ | _
    · simp only [hv, Bool.false_eq_true, if_false]
      rcases hf : files.isEmpty with _ | _
      · simp only [hf, Bool.false_eq_true, if_false]
        rcases hc : mk keyword with _ | _
        · simp only [hc, Bool.false_eq_true, if_false]
          exact cp_of_no_enqueue _ rfl
        · simp only [hc, if_true]
          refine cp_create_head _ _ ?_
          intro f d2 hmem
          rcases List.mem_append.mp hmem with hm | hm
          · obtain ⟨g, _, hg⟩ := List.mem_map.mp hm
            exact (DEvent.enqueueJob.inj hg.symm).2
          · simp at hm
      · simp only [hf, if_true]
        exact cp_of_no_enqueue _ rfl
    · simp only [hv, if_true]
      exact cp_of_no_enqueue _ rfl
  · unfold organizeByContent
    rcases validDir with _ | _
    · exact cp_of_no_enqueue _ rfl
    · simp only [Bool.not_true, Bool.false_eq_true, if_false]
      rcases hf : files.isEmpty with _ | _
      · simp only [hf, Bool.false_eq_true, if_false]
        refine cp_append (cp_flatMap _ _ fun g _ => cp_contentFileEvents mk g keywords) ?_
        exact cp_of_no_enqueue _ rfl
      · simp only [hf, if_true]
        exact cp_of_no_enqueue _ rfl

/-- A tiny concrete run used by several witnesses. -/
def wFile : FileEntry :=
  { filename := "apple.txt", pathLen := 14, size := 5, ext := ".txt",
    content := "hello" }

/-- Concrete instantiation of the C9 theorem on a one-file scan. -/
theorem create_precedes_dispatch_witness :
    createPrecedes (organizeAlphabetically true [wFile] [wFile] (fun _ => true)) ∧
      createPrecedes (organizeByKeyword true "app" [wFile] [wFile] (fun _ => true)) ∧
      createPrecedes (organizeByContent true ["hello"] [wFile] [wFile] (fun _ => true)) :=
  create_precedes_dispatch_all_modes true [wFile] [wFile] (fun _ => true) "app" ["hello"]

/-! ### ASCII letter bridges -/

theorem mem_of_contains_letters (l : List Char) (c : Char)
    (h : l.contains c = true) : c ∈ l := by
  simpa using h

theorem asciiToUpper_mem_lettersAZ (c : Char) (h : isAsciiLetter c = true) :
    asciiToUpper c ∈ lettersAZ := by
  have h2 : c ∈ lettersAZ ∨ c ∈ lettersLower := by
    simpa [isAsciiLetter] using h
  rcases h2 with h2 | h2
  · fin_cases h2 <;> decide
  · fin_cases h2 <;> decide

theorem isAsciiLetter_of_mem_lettersAZ (c : Char) (h : c ∈ lettersAZ) :
    isAsciiLetter c = true := by
  simp only [isAsciiLetter]
  simp
  exact Or.inl h

theorem asciiToUpper_eq_self_of_not_letter (c : Char)
    (h : isAsciiLetter c = false) : asciiToUpper c = c := by
  unfold asciiToUpper
  rcases hfind : (lettersLower.zip lettersAZ).find? (fun p => p.1 == c) with _ | p
  · rw [hfind]
  · exfalso
    have hpc := List.find?_some hfind
    have hmem : p ∈ lettersLower.zip lettersAZ := List.mem_of_find?_eq_some hfind
    have hp1 : p.1 ∈ lettersLower := by
      rcases p with ⟨x, y⟩
      exact (List.of_mem_zip hmem).1
    rw [show p.1 = c from by simpa using hpc] at hp1
    have h3 : isAsciiLetter c = true := by
      simp only [isAsciiLetter]
      simp
      exact Or.inr hp1
    rw [h3] at h
    exact Bool.true_eq_false.mp h

/-! ### Alphabetical routing (C3, C10) -/

/-- Claim C3: in alphabetical mode (with every destination creation
succeeding), every scanned file whose filename starts with an ASCII letter
is enqueued for the folder named by the upper-cased form of that letter,
which is one of `A`..`Z`; a file whose first character is not an ASCII
letter is never enqueued anywhere, and the run still ends with the normal
success message (the skip is not an error). -/
theorem alphabetical_routes_by_first_letter (files sorted : List FileEntry)
    (mk : String → Bool) (f : FileEntry) (hmk : ∀ s2, mk s2 = true)
    (hf : f ∈ sorted) (hfiles : files.isEmpty = false) :
    (isAsciiLetter (firstChar f.filename) = true →
      upFirst f.filename ∈ lettersAZ ∧
        DEvent.enqueueJob f (String.singleton (upFirst f.filename)) ∈
          organizeAlphabetically true files sorted mk) ∧
    (isAsciiLetter (firstChar f.filename) = false →
      ∀ d, DEvent.enqueueJob f d ∉ organizeAlphabetically true files sorted mk) ∧
    DEvent.message "Files organized alphabetically!" ∈
      organizeAlphabetically true files sorted mk := by
  have hevs : organizeAlphabetically true files sorted mk =
      (lettersAZ.flatMap (alphaLetterBlock mk sorted)) ++
        [DEvent.message "Files organized alphabetically!"] := by
    simp [organizeAlphabetically, hfiles]
  refine ⟨?_, ?_, ?_⟩
  · intro hlet
    have hL : upFirst f.filename ∈ lettersAZ := asciiToUpper_mem_lettersAZ _ hlet
    refine ⟨hL, ?_⟩
    rw [hevs]
    refine List.mem_append.mpr (Or.inl (List.mem_flatMap.mpr ⟨upFirst f.filename, hL, ?_⟩))
    unfold alphaLetterBlock createEvents
    rw [hmk (String.singleton (upFirst f.filename))]
    simp only [if_true]
    refine List.mem_append.mpr (Or.inr ?_)
    refine List.mem_map.mpr ⟨f, List.mem_filter.mpr ⟨hf, ?_⟩, rfl⟩
    exact beq_self_eq_true _
  · intro hnot d hmem
    rw [hevs] at hmem
    rcases List.mem_append.mp hmem with hm | hm
    · obtain ⟨L, hL, hblk⟩ := List.mem_flatMap.mp hm
      unfold alphaLetterBlock createEvents at hblk
      rcases List.mem_append.mp hblk with hb | hb
      · rcases hc : mk (String.singleton L) with _ | _ <;> rw [hc] at hb <;> simp at hb
      · rcases hc : mk (String.singleton L) with _ | _ <;> rw [hc] at hb
        · simp at hb
        · simp only [if_true] at hb
          obtain ⟨g, hgf, hg⟩ := List.mem_map.mp hb
          have hginj := DEvent.enqueueJob.inj hg
          rw [hginj.1] at hgf
          have hfilt : upFirst f.filename = L :=
            beq_iff_eq.mp (List.mem_filter.mp hgf).2
          have : isAsciiLetter (firstChar f.filename) = true := by
            have hup : upFirst f.filename = firstChar f.filename :=
              asciiToUpper_eq_self_of_not_letter _ hnot
            refine isAsciiLetter_of_mem_lettersAZ _ ?_
            rw [← hup, hfilt]
            exact hL
          rw [this] at hnot
          exact Bool.true_eq_false.mp hnot
    · simp at hm
  · rw [hevs]
    exact List.mem_append.mpr (Or.inr (by simp))

/-- Concrete instantiation of the C3 theorem: `apple.txt` goes to `A`,
and a file named `1file.txt` is enqueued nowhere. -/
theorem alphabetical_routes_witness :
    (isAsciiLetter (firstChar wFile.filename) = true →
      upFirst wFile.filename ∈ lettersAZ ∧
        DEvent.enqueueJob wFile (String.singleton (upFirst wFile.filename)) ∈
          organizeAlphabetically true [wFile] [wFile] (fun _ => true)) ∧
    (isAsciiLetter (firstChar wFile.filename) = false →
      ∀ d, DEvent.enqueueJob wFile d ∉
        organizeAlphabetically true [wFile] [wFile] (fun _ => true)) ∧
    DEvent.message "Files organized alphabetically!" ∈
      organizeAlphabetically true [wFile] [wFile] (fun _ => true) :=
  alphabetical_routes_by_first_letter [wFile] [wFile] (fun _ => true) wFile
    (fun _ => rfl) (by decide) (by decide)

/-- Claim C10: whenever the scan found at least one regular file, the
alphabetical run attempts to create a folder for every letter `A`..`Z`,
whether or not any file starts with that letter. -/
theorem alphabetical_attempts_all_letter_folders (files sorted : List FileEntry)
    (mk : String → Bool) (hfiles : files.isEmpty = false) :
    ∀ letter ∈ lettersAZ,
      DEvent.create (String.singleton letter) (mk (String.singleton letter)) ∈
        organizeAlphabetically true files sorted mk := by
  intro L hL
  have hevs : organizeAlphabetically true files sorted mk =
      (lettersAZ.flatMap (alphaLetterBlock mk sorted)) ++
        [DEvent.message "Files organized alphabetically!"] := by
    simp [organizeAlphabetically, hfiles]
  rw [hevs]
  refine List.mem_append.mpr (Or.inl (List.mem_flatMap.mpr ⟨L, hL, ?_⟩))
  unfold alphaLetterBlock createEvents
  rcases hc : mk (String.singleton L) with _ | _ <;> simp [hc]

/-- Concrete instantiation of the C10 theorem: with one scanned file named
`apple.txt`, even the folder `Q` is attempted. -/
theorem alphabetical_attempts_all_letter_folders_witness :
    DEvent.create (String.singleton 'Q') ((fun _ => true) (String.singleton 'Q')) ∈
      organizeAlphabetically true [wFile] [wFile] (fun _ => true) :=
  alphabetical_attempts_all_letter_folders [wFile] [wFile] (fun _ => true)
    (by decide) 'Q' (by decide)

/-! ### Content-mode classification (C2) -/

/-- Claim C2 (amended): in content mode a file whose content contains at
least one keyword is dispatched to the FIRST keyword, in keyword-list
order, whose substring occurs in the content AND whose destination folder
can be created; when a matching keyword's folder creation fails, the code
`continue`s with the later keywords instead of stopping; once a job has
been dispatched the scan `break`s, so a file is never dispatched to more
than one content destination.  When every creation succeeds this is exactly
first-match-wins. -/
theorem content_destination_first_creatable_keyword (mk : String → Bool)
    (f : FileEntry) (kws : List String) :
    dispatched (contentFileEvents mk f kws) =
      (match kws.find?
          (fun kw => containsSub kw.toList f.content.toList && mk kw) with
        | some kw => [(f, kw)]
        | none => []) ∧
    (dispatched (contentFileEvents mk f kws)).length ≤ 1 := by
  have hmain : dispatched (contentFileEvents mk f kws) =
      (match kws.find?
          (fun kw => containsSub kw.toList f.content.toList && mk kw) with
        | some kw => [(f, kw)]
        | none => []) := by
    induction kws with
    | nil => rfl
    | cons kw rest ih =>
      unfold contentFileEvents
      rcases hm : containsSub kw.toList f.content.toList with _ | _
      · rw [if_neg Bool.false_ne_true, ih,
          List.find?_cons_of_neg _ (by rw [hm]; simp)]
      · rcases hc : mk kw with _ | _
        · rw [if_pos rfl, if_neg Bool.false_ne_true,
            List.find?_cons_of_neg _ (by rw [hm, hc]; simp), ← ih]
          simp [dispatched]
        · rw [if_pos rfl, if_pos rfl,
            List.find?_cons_of_pos _ (by rw [hm, hc]; simp)]
          rfl
  refine ⟨hmain, ?_⟩
  rw [hmain]
  generalize List.find?
    (fun kw => containsSub kw.toList f.content.toList && mk kw) kws = r
  cases r <;> simp

def c2File : FileEntry :=
  { filename := "notes.txt", pathLen := 14, size := 2, ext := ".txt",
    content := "ab" }

def c2mk : String → Bool := fun s2 => s2 != "a"

/-- Claim C2 counterexample: the file content contains the first keyword
`"a"`, but because creating folder `"a"` fails, the scan does NOT stop at
that first match — the file is dispatched to the second keyword `"b"`,
contradicting the claim that the destination is always the first matching
keyword and that scanning stops there. -/
theorem content_first_match_counterexample :
    containsSub "a".toList c2File.content.toList = true ∧
      containsSub "b".toList c2File.content.toList = true ∧
      c2mk "a" = false ∧
      dispatched (contentFileEvents c2mk c2File ["a", "b"]) = [(c2File, "b")] := by
  decide

/-! ### Heuristic score and dispatch order (C5) -/

theorem cheapExt_iff (e : String) :
    cheapExt e = true ↔ e = ".txt" ∨ e = ".jpg" ∨ e = ".png" := by
  simp [cheapExt, or_assoc]

theorem dispatched_map_enqueue (l : List FileEntry) (d : String) :
    dispatched (l.map fun f => DEvent.enqueueJob f d) =
      l.map (fun f => (f, d)) := by
  induction l with
  | nil => rfl
  | cons f t ih => simp [dispatched, ih]

/-- Claim C5 (amended): the candidate list handed to the dispatch loop is a
permutation of the scanned files ordered by ascending heuristic score,
where the score is the unsigned sum byte-size + full-path-length truncated
to a 32-bit signed `int`, minus the fixed constant 1000 for the cheap
extensions `.txt`, `.jpg`, `.png` — which coincides with plain
byte-size + path-length − bonus exactly when the sum is below 2^31 (files
smaller than 2 GiB minus the path length), and wraps for larger files;
hence the dispatched jobs of a keyword run appear in non-decreasing score
order.  `std::sort` is NOT stable, so equal-score files need not keep
their original scan order (see the counterexample, which also exhibits the
wrap at 2 GiB). -/
theorem heuristic_score_and_dispatch_order (validDir : Bool) (kw : String)
    (files sorted : List FileEntry) (mk : String → Bool)
    (h : CppSorted files sorted) :
    List.Perm sorted files ∧
      (∀ f : FileEntry, f.size + f.pathLen < 2147483648 →
        evaluate f =
          ((f.size : Int) + (f.pathLen : Int)) -
            (if f.ext = ".txt" ∨ f.ext = ".jpg" ∨ f.ext = ".png" then 1000
             else 0)) ∧
      List.Sorted (fun a b => evaluate a ≤ evaluate b)
        ((dispatched (organizeByKeyword validDir kw files sorted mk)).map
          Prod.fst) := by
  refine ⟨h.1, ?_, ?_⟩
  · intro f hlt
    have h1 : (f.size + f.pathLen) % 4294967296 = f.size + f.pathLen :=
      Nat.mod_eq_of_lt (hlt.trans (by norm_num))
    have h2 : toInt32 (f.size + f.pathLen) = (f.size : Int) + (f.pathLen : Int) := by
      rw [toInt32, h1, if_pos hlt]
      push_cast
      rfl
    unfold evaluate
    rw [h2]
    by_cases hc : f.ext = ".txt" ∨ f.ext = ".jpg" ∨ f.ext = ".png"
    · rw [if_pos hc, if_pos ((cheapExt_iff f.ext).mpr hc)]
    · rw [if_neg hc,
        if_neg (fun hb => hc ((cheapExt_iff f.ext).mp hb))]
  · unfold organizeByKeyword
    rcases hv : (!validDir || kw.isEmpty) with _ | _
    · simp only [hv, Bool.false_eq_true, if_false]
      rcases hf : files.isEmpty with _ | _
      · simp only [hf, Bool.false_eq_true, if_false]
        rcases hc : mk kw with _ | _
        · simp [hc, dispatched]
        · simp only [hc, if_true]
          rw [show dispatched (DEvent.create kw true ::
              ((sorted.filter
                (fun f => containsSub kw.toList f.filename.toList)).map
                (fun f => DEvent.enqueueJob f kw) ++
              [DEvent.message
                ("Files with keyword '" ++ kw ++ "' moved successfully!")])) =
              dispatched
              ((sorted.filter
                (fun f => containsSub kw.toList f.filename.toList)).map
                (fun f => DEvent.enqueueJob f kw) ++
              [DEvent.message
                ("Files with keyword '" ++ kw ++ "' moved successfully!")])
            from rfl]
          rw [dispatched_append, dispatched_map_enqueue]
          rw [show dispatched [DEvent.message
              ("Files with keyword '" ++ kw ++ "' moved successfully!")] = []
            from rfl]
          rw [List.append_nil, List.map_map]
          rw [show (Prod.fst ∘ fun f => ((f, kw) : FileEntry × String)) = id
            from rfl]
          rw [List.map_id]
          exact List.Pairwise.sublist (List.filter_sublist sorted) h.2
      · simp [hf, dispatched]
    · simp [hv, dispatched]

/-- Concrete instantiation of the C5 theorem on a one-file scan. -/
theorem heuristic_score_witness :
    List.Perm [wFile] [wFile] ∧
      (∀ f : FileEntry, f.size + f.pathLen < 2147483648 →
        evaluate f =
          ((f.size : Int) + (f.pathLen : Int)) -
            (if f.ext = ".txt" ∨ f.ext = ".jpg" ∨ f.ext = ".png" then 1000
             else 0)) ∧
      List.Sorted (fun a b => evaluate a ≤ evaluate b)
        ((dispatched (organizeByKeyword true "app" [wFile] [wFile]
          (fun _ => true))).map Prod.fst) :=
  heuristic_score_and_dispatch_order true "app" [wFile] [wFile] (fun _ => true)
    ⟨List.Perm.refl _, by decide⟩

def tieA : FileEntry :=
  { filename := "a1.bin", pathLen := 6, size := 10, ext := ".bin",
    content := "" }

def tieB : FileEntry :=
  { filename := "b2.bin", pathLen := 6, size := 10, ext := ".bin",
    content := "" }

/-- A 2-GiB file: its unsigned size + path-length sum reaches 2^31, so the
conversion into the 32-bit `int priority` wraps to a negative score. -/
def bigFile : FileEntry :=
  { filename := "huge.bin", pathLen := 10, size := 2147483648, ext := ".bin",
    content := "" }

/-- Claim C5 counterexample, refuting both halves of the claim as stated:
(1) the score of a 2-GiB file is NOT its byte-size plus path length minus
the bonus — the 32-bit `int priority` wraps and the file gets a negative
score; (2) `std::sort`'s contract admits an output that reverses two
equal-score files, so the sort is not stable and ties need not keep their
original scan order. -/
theorem sort_stability_counterexample :
    (evaluate bigFile ≠
        ((bigFile.size : Int) + (bigFile.pathLen : Int)) -
          (if bigFile.ext = ".txt" ∨ bigFile.ext = ".jpg" ∨
              bigFile.ext = ".png" then 1000 else 0) ∧
      evaluate bigFile < 0) ∧
      evaluate tieA = evaluate tieB ∧ tieA ≠ tieB ∧
      CppSorted [tieA, tieB] [tieB, tieA] ∧
      [tieB, tieA] ≠ [tieA, tieB] := by
  refine ⟨⟨by decide, by decide⟩, by decide, by decide,
    ⟨List.Perm.swap tieA tieB [], by decide⟩, by decide⟩

/-! ### Destination-creation failure (C6) -/

theorem string_singleton_inj (a b : Char)
    (h : String.singleton a = String.singleton b) : a = b := by
  have h2 : (String.singleton a).data = (String.singleton b).data := by rw [h]
  simpa [String.singleton] using h2

/-- Claim C6 (amended): when creating a destination folder fails, the jobs
targeting that folder are skipped (never enqueued) and a single
directory-level error message is shown, but the skipped jobs are not
individually recorded as failures anywhere; in alphabetical mode jobs
targeting every other (creatable) destination still proceed and the run
still ends with its success message, while in keyword mode — where the
failed keyword folder is the only destination — the run ends right after
the directory error, before any dispatch. -/
theorem destination_failure_localized (files sorted : List FileEntry)
    (mk : String → Bool) (L : Char) (hfail : mk (String.singleton L) = false)
    (hfiles : files.isEmpty = false) (kw : String) (hkw : kw.isEmpty = false)
    (hkwfail : mk kw = false) :
    (∀ f, DEvent.enqueueJob f (String.singleton L) ∉
        organizeAlphabetically true files sorted mk) ∧
      (L ∈ lettersAZ →
        DEvent.message ("Error creating directory: " ++ String.singleton L) ∈
          organizeAlphabetically true files sorted mk) ∧
      (∀ M ∈ lettersAZ, mk (String.singleton M) = true →
        ∀ f ∈ sorted, upFirst f.filename = M →
          DEvent.enqueueJob f (String.singleton M) ∈
            organizeAlphabetically true files sorted mk) ∧
      DEvent.message "Files organized alphabetically!" ∈
        organizeAlphabetically true files sorted mk ∧
      organizeByKeyword true kw files sorted mk =
        [DEvent.create kw false,
         DEvent.message ("Error creating directory: " ++ kw)] := by
  have hevs : organizeAlphabetically true files sorted mk =
      (lettersAZ.flatMap (alphaLetterBlock mk sorted)) ++
        [DEvent.message "Files organized alphabetically!"] := by
    simp [organizeAlphabetically, hfiles]
  refine ⟨?_, ?_, ?_, ?_, ?_⟩
  · intro f hmem
    rw [hevs] at hmem
    rcases List.mem_append.mp hmem with hm | hm
    · obtain ⟨M, _, hblk⟩ := List.mem_flatMap.mp hm
      unfold alphaLetterBlock createEvents at hblk
      rcases List.mem_append.mp hblk with hb | hb
      · rcases hc : mk (String.singleton M) with _ | _ <;> rw [hc] at hb <;>
          simp at hb
      · rcases hc : mk (String.singleton M) with _ | _ <;> rw [hc] at hb
        · simp at hb
        · simp only [if_true] at hb
          obtain ⟨g, _, hg⟩ := List.mem_map.mp hb
          have hMT := (DEvent.enqueueJob.inj hg).2
          rw [string_singleton_inj _ _ hMT] at hc
          rw [hc] at hfail
          exact Bool.true_eq_false.mp hfail
    · simp at hm
  · intro hL
    rw [hevs]
    refine List.mem_append.mpr (Or.inl (List.mem_flatMap.mpr ⟨L, hL, ?_⟩))
    unfold alphaLetterBlock createEvents
    rw [hfail]
    simp
  · intro M hM hok f hf hup
    rw [hevs]
    refine List.mem_append.mpr (Or.inl (List.mem_flatMap.mpr ⟨M, hM, ?_⟩))
    unfold alphaLetterBlock createEvents
    rw [hok]
    simp only [if_true]
    refine List.mem_append.mpr (Or.inr ?_)
    refine List.mem_map.mpr ⟨f, List.mem_filter.mpr ⟨hf, ?_⟩, rfl⟩
    rw [hup]
    exact beq_self_eq_true _
  · rw [hevs]
    exact List.mem_append.mpr (Or.inr (by simp))
  · simp [organizeByKeyword, hkw, hfiles, hkwfail]

def c6mkW : String → Bool := fun s2 => !(s2 == "A" || s2 == "docs")

/-- Concrete instantiation of the C6 theorem: folder `A` (and keyword folder
`docs`) cannot be created while `apple.txt` is scanned. -/
theorem destination_failure_localized_witness :
    (∀ f, DEvent.enqueueJob f (String.singleton 'A') ∉
        organizeAlphabetically true [wFile] [wFile] c6mkW) ∧
      ('A' ∈ lettersAZ →
        DEvent.message ("Error creating directory: " ++ String.singleton 'A') ∈
          organizeAlphabetically true [wFile] [wFile] c6mkW) ∧
      (∀ M ∈ lettersAZ, c6mkW (String.singleton M) = true →
        ∀ f ∈ [wFile], upFirst f.filename = M →
          DEvent.enqueueJob f (String.singleton M) ∈
            organizeAlphabetically true [wFile] [wFile] c6mkW) ∧
      DEvent.message "Files organized alphabetically!" ∈
        organizeAlphabetically true [wFile] [wFile] c6mkW ∧
      organizeByKeyword true "docs" [wFile] [wFile] c6mkW =
        [DEvent.create "docs" false,
         DEvent.message ("Error creating directory: " ++ "docs")] :=
  destination_failure_localized [wFile] [wFile] c6mkW 'A' (by decide)
    (by decide) "docs" (by decide) (by decide)

def c6mk : String → Bool := fun s2 => s2 != "A"

/-- Claim C6 counterexample: with `apple.txt` scanned and the creation of
folder `A` failing, the job for `apple.txt` is indeed skipped and the run
continues, BUT no failure is recorded for the skipped job: the run's only
messages are the directory-level error and the overall success banner, and
no message of the run even mentions the file, refuting the claim that each
skipped job is recorded as a failure in the run's result. -/
theorem destination_failure_counterexample :
    dispatched (organizeAlphabetically true [wFile] [wFile] c6mk) = [] ∧
      (organizeAlphabetically true [wFile] [wFile] c6mk).all
        (fun e => match e with
          | DEvent.message t => !containsSub wFile.filename.toList t.toList
          | _ => true) = true ∧
      DEvent.message "Files organized alphabetically!" ∈
        organizeAlphabetically true [wFile] [wFile] c6mk ∧
      DEvent.message ("Error creating directory: " ++ "A") ∈
        organizeAlphabetically true [wFile] [wFile] c6mk := by
  decide

/-! ### Input errors abort before dispatch (C7) -/

/-- Claim C7: an invalid or missing source directory — and, in keyword mode,
an empty keyword — is reported as the run's only observable action: the run
stops with the error message, no destination folder creation is attempted,
no job is dispatched, and the success message never appears. -/
theorem input_error_reported_before_dispatch (validDir : Bool) (kw : String)
    (files sorted : List FileEntry) (mk : String → Bool) (kws : List String)
    (h : validDir = false ∨ kw.isEmpty = true) :
    organizeByKeyword validDir kw files sorted mk =
        [DEvent.message "Invalid directory or keyword."] ∧
      dispatched (organizeByKeyword validDir kw files sorted mk) = [] ∧
      createsAttempted (organizeByKeyword validDir kw files sorted mk) = [] ∧
      organizeAlphabetically false files sorted mk =
        [DEvent.message "Invalid directory."] ∧
      organizeByContent false kws files sorted mk =
        [DEvent.message "Invalid directory."] ∧
      dispatched (organizeAlphabetically false files sorted mk) = [] ∧
      createsAttempted (organizeAlphabetically false files sorted mk) = [] ∧
      dispatched (organizeByContent false kws files sorted mk) = [] ∧
      createsAttempted (organizeByContent false kws files sorted mk) = [] := by
  have hcond : (!validDir || kw.isEmpty) = true := by
    rcases h with h | h <;> simp [h]
  have hk : organizeByKeyword validDir kw files sorted mk =
      [DEvent.message "Invalid directory or keyword."] := by
    simp [organizeByKeyword, hcond]
  refine ⟨hk, ?_, ?_, rfl, rfl, rfl, rfl, rfl, rfl⟩
  · rw [hk]
    rfl
  · rw [hk]
    rfl

/-- Concrete instantiation of the C7 theorem on an invalid directory. -/
theorem input_error_reported_witness :
    organizeByKeyword false "app" [wFile] [wFile] (fun _ => true) =
        [DEvent.message "Invalid directory or keyword."] ∧
      dispatched (organizeByKeyword false "app" [wFile] [wFile]
        (fun _ => true)) = [] ∧
      createsAttempted (organizeByKeyword false "app" [wFile] [wFile]
        (fun _ => true)) = [] ∧
      organizeAlphabetically false [wFile] [wFile] (fun _ => true) =
        [DEvent.message "Invalid directory."] ∧
      organizeByContent false ["hello"] [wFile] [wFile] (fun _ => true) =
        [DEvent.message "Invalid directory."] ∧
      dispatched (organizeAlphabetically false [wFile] [wFile]
        (fun _ => true)) = [] ∧
      createsAttempted (organizeAlphabetically false [wFile] [wFile]
        (fun _ => true)) = [] ∧
      dispatched (organizeByContent false ["hello"] [wFile] [wFile]
        (fun _ => true)) = [] ∧
      createsAttempted (organizeByContent false ["hello"] [wFile] [wFile]
        (fun _ => true)) = [] :=
  input_error_reported_before_dispatch false "app" [wFile] [wFile]
    (fun _ => true) ["hello"] (Or.inl rfl)

/-! ### Empty scans terminate early (C8) -/

/-- Claim C8: a run over a directory that does not exist, or over one that
contains no regular files, terminates with the corresponding status
message as its only observable action — nothing is dispatched and no
destination folder creation is attempted, in any of the three modes. -/
theorem no_files_or_invalid_dir_early_exit (files sorted : List FileEntry)
    (mk : String → Bool) (kw : String) (kws : List String)
    (hkw : kw.isEmpty = false) :
    organizeAlphabetically false files sorted mk =
        [DEvent.message "Invalid directory."] ∧
      organizeAlphabetically true [] sorted mk =
        [DEvent.message "No files found."] ∧
      organizeByKeyword false kw files sorted mk =
        [DEvent.message "Invalid directory or keyword."] ∧
      organizeByKeyword true kw [] sorted mk =
        [DEvent.message "No files found."] ∧
      organizeByContent false kws files sorted mk =
        [DEvent.message "Invalid directory."] ∧
      organizeByContent true kws [] sorted mk =
        [DEvent.message "No files found."] ∧
      ∀ t, dispatched [DEvent.message t] = [] ∧
        createsAttempted [DEvent.message t] = [] := by
  refine ⟨rfl, rfl, rfl, ?_, rfl, rfl, fun t => ⟨rfl, rfl⟩⟩
  simp [organizeByKeyword, hkw]

/-- Concrete instantiation of the C8 theorem. -/
theorem no_files_or_invalid_dir_witness :
    organizeAlphabetically false [wFile] [wFile] (fun _ => true) =
        [DEvent.message "Invalid directory."] ∧
      organizeAlphabetically true [] [wFile] (fun _ => true) =
        [DEvent.message "No files found."] ∧
      organizeByKeyword false "app" [wFile] [wFile] (fun _ => true) =
        [DEvent.message "Invalid directory or keyword."] ∧
      organizeByKeyword true "app" [] [wFile] (fun _ => true) =
        [DEvent.message "No files found."] ∧
      organizeByContent false ["hello"] [wFile] [wFile] (fun _ => true) =
        [DEvent.message "Invalid directory."] ∧
      organizeByContent true ["hello"] [] [wFile] (fun _ => true) =
        [DEvent.message "No files found."] ∧
      ∀ t, dispatched [DEvent.message t] = [] ∧
        createsAttempted [DEvent.message t] = [] :=
  no_files_or_invalid_dir_early_exit [wFile] [wFile] (fun _ => true) "app"
    ["hello"] (by decide)

end FileOrganizer
